import Mathlib

/-!
Shallow embedding of the nested validation-error collector of the
`angular_reactive-forms` repository (`getFormValidationErrors` in
`ProfileEditorComponent`), together with proofs of the claims of the
specification about it.

The Angular control tree is modelled by the closed variant `FieldNode`:
a leaf `FormControl` (a value plus an optional error mapping), a
`FormGroup` (ordered named children plus the own optional error mapping
of the group), and a `FormArray` (ordered items plus its own optional
error mapping).  The `errors` component is `Option ValidationErrors`:
`none` models the `null` that Angular returns for a control with no
active errors, and a `ValidationErrors` value is the ordered key/value
listing of the error object (`Object.keys` iteration order).
-/

namespace ReactiveForms

/-- An arbitrary JavaScript detail payload (the `any`-typed error value). -/
inductive JsonVal where
  | null
  | bool (b : Bool)
  | num (n : Int)
  | str (s : String)
deriving DecidableEq, Repr

/-- The Angular `ValidationErrors` object, as its ordered key/value entries. -/
abbrev ValidationErrors := List (String × JsonVal)

/-- The `IFormError` record of `profile-editor.component.ts`:
`control: string; error: string; value: any`. -/
structure IFormError where
  control : String
  error : String
  value : JsonVal
deriving DecidableEq, Repr

/-- A node of the Angular control tree: `FormControl`, `FormGroup`, or
`FormArray`.  Each carries its own `errors` (a mapping or `null`). -/
inductive FieldNode where
  | field (value : JsonVal) (errors : Option ValidationErrors)
  | group (controls : List (String × FieldNode)) (errors : Option ValidationErrors)
  | arr (items : List FieldNode) (errors : Option ValidationErrors)
deriving Repr

/-- The `instanceof FormGroup` runtime test of the source. -/
def FieldNode.isFormGroup : FieldNode → Bool
  | .group _ _ => true
  | _ => false

/-- Reading `formProperty.errors` (only the own error mapping of the node). -/
def FieldNode.errorsOf : FieldNode → Option ValidationErrors
  | .field _ e => e
  | .group _ e => e
  | .arr _ e => e

/-- The `if (controlErrors) ... Object.keys(controlErrors).forEach`
block of the source: one `IFormError` per entry of the own error mapping
of the child, in the iteration order of that mapping, tagged with the
immediate child key only (`control: key`). -/
def ownErrors (key : String) (child : FieldNode) : List IFormError :=
  match child.errorsOf with
  | none => []
  | some es => es.map fun p => ⟨key, p.1, p.2⟩

mutual

/-- `getFormValidationErrors(form)` of `src/unnamed/part_000` (the
recursive variant): iterate the controls of the group in declared order;
for a child that is a `FormGroup`, first append the recursive result,
then in every case append the own errors of the child. -/
def getFormValidationErrors : FieldNode → List IFormError
  | .group cs _ => collectControls cs
  | _ => []

/-- The `Object.keys(form.controls).forEach` loop of
`getFormValidationErrors`, over the remaining controls. -/
def collectControls : List (String × FieldNode) → List IFormError
  | [] => []
  | (key, child) :: rest =>
      (if child.isFormGroup then getFormValidationErrors child else [])
        ++ ownErrors key child ++ collectControls rest

end

/-- The contribution of a single child, i.e. of one iteration of the
source loop: the recursive result when the child is a `FormGroup`,
followed by the own errors of the child. -/
def childResult (key : String) (child : FieldNode) : List IFormError :=
  (if child.isFormGroup then getFormValidationErrors child else [])
    ++ ownErrors key child

mutual

/-- All `(name, child)` edges of the tree that the recursive collector
can reach: the controls of the root group and, recursively, of every
descendant group (arrays are not descended into, matching the source). -/
def allControls : FieldNode → List (String × FieldNode)
  | .group cs _ => allControlsList cs
  | _ => []

/-- List form of `allControls`. -/
def allControlsList : List (String × FieldNode) → List (String × FieldNode)
  | [] => []
  | (key, c) :: rest =>
      (key, c) :: ((if c.isFormGroup then allControls c else [])
        ++ allControlsList rest)

end

/-- Replace an absent (`null`) error mapping by the empty mapping. -/
def normErr : Option ValidationErrors → Option ValidationErrors
  | none => some []
  | some es => some es

mutual

/-- Replace every absent (`null`) error mapping in the tree by the
empty mapping, leaving everything else unchanged. -/
def fillErrors : FieldNode → FieldNode
  | .field v e => .field v (normErr e)
  | .group cs e => .group (fillErrorsList cs) (normErr e)
  | .arr its e => .arr (fillErrorsArr its) (normErr e)

/-- `fillErrors` on the controls of a group. -/
def fillErrorsList : List (String × FieldNode) → List (String × FieldNode)
  | [] => []
  | (k, c) :: rest => (k, fillErrors c) :: fillErrorsList rest

/-- `fillErrors` on the items of an array. -/
def fillErrorsArr : List FieldNode → List FieldNode
  | [] => []
  | c :: rest => fillErrors c :: fillErrorsArr rest

end

mutual

/-- Every error mapping in the tree (fields, groups and arrays alike)
is absent or empty. -/
def allValid : FieldNode → Bool
  | .field _ e => (e.getD []).isEmpty
  | .group cs e => (e.getD []).isEmpty && allValidList cs
  | .arr its e => (e.getD []).isEmpty && allValidArr its

/-- `allValid` on the controls of a group. -/
def allValidList : List (String × FieldNode) → Bool
  | [] => true
  | (_, c) :: rest => allValid c && allValidList rest

/-- `allValid` on the items of an array. -/
def allValidArr : List FieldNode → Bool
  | [] => true
  | c :: rest => allValid c && allValidArr rest

end

mutual

/-- Fuel-indexed variant of the collector: each recursive call consumes
one unit of fuel and exhausted fuel yields `none`.  It makes the
termination claim of the specification statable: on every (finite,
acyclic) tree a fuel budget bounded by the size of the tree suffices. -/
def collectFuel : Nat → FieldNode → Option (List IFormError)
  | 0, _ => none
  | fuel + 1, .group cs _ => collectControlsFuel fuel cs
  | _ + 1, _ => some []

/-- Fuel-indexed variant of `collectControls`. -/
def collectControlsFuel : Nat → List (String × FieldNode) → Option (List IFormError)
  | 0, _ => none
  | _ + 1, [] => some []
  | fuel + 1, (key, child) :: rest => do
      let r1 ← if child.isFormGroup then collectFuel fuel child else some []
      let r2 ← collectControlsFuel fuel rest
      some (r1 ++ ownErrors key child ++ r2)

end

mutual

/-- State-passing form of the collector, which makes the read-only
nature of the source explicit: every access (`form.controls`,
`form.get(key)`, `formProperty.errors`) yields the value read together
with the (unchanged) node, and the call returns the collected list
together with the tree it leaves behind. -/
def collectM : FieldNode → List IFormError × FieldNode
  | .group cs es => ((collectControlsM cs).1, .group (collectControlsM cs).2 es)
  | t => ([], t)

/-- State-passing form of `collectControls`: the recursive result and
the child left by the recursive call, the own errors read from that
child, and the result on the remaining controls with the controls they
leave behind. -/
def collectControlsM :
    List (String × FieldNode) → List IFormError × List (String × FieldNode)
  | [] => ([], [])
  | (key, child) :: rest =>
      let c := if child.isFormGroup then collectM child else ([], child)
      let r := collectControlsM rest
      (c.1 ++ ownErrors key c.2 ++ r.1, (key, c.2) :: r.2)

end

/-- The `Object.keys(this.profileForm.controls).forEach` loop of the old
non-recursive variant: the `if (controlErrors != null)` guard followed
by one reported triple per error entry. -/
def oldLog : List (String × FieldNode) → List IFormError
  | [] => []
  | (key, child) :: rest =>
      (match child.errorsOf with
       | none => []
       | some es => es.map fun p => ⟨key, p.1, p.2⟩)
        ++ oldLog rest

/-- The earlier, non-recursive `getFormValidationErrors` of
`src/src/app/profile-editor/profile-editor.component.ts`: it walks only
the top-level controls of the group and, for each control whose `errors`
is not `null`, reports the `(control, error, value)` triple of every
entry of that mapping, in order.  It never recurses into child groups. -/
def getFormValidationErrorsOld : FieldNode → List IFormError
  | .group cs _ => oldLog cs
  | _ => []

/-- A group is flat when none of its children is itself a `FormGroup`. -/
def isFlat : FieldNode → Bool
  | .group cs _ => cs.all fun p => !p.2.isFormGroup
  | _ => false

/-- The concrete tree of the nested-group test case of the
specification: `firstName` valid, `address` a group whose `city` child
carries the mapping `required ↦ true`, `street` valid, and the address
group itself carrying the empty mapping. -/
def c1Root : FieldNode :=
  .group
    [("firstName", .field (.str "") none),
     ("address",
       .group
         [("city", .field (.str "") (some [("required", .bool true)])),
          ("street", .field (.str "") none)]
         (some []))]
    none

/-! ### Basic structural lemmas -/

/-- The loop of the collector distributes over list append. -/
theorem collectControls_append (l₁ l₂ : List (String × FieldNode)) :
    collectControls (l₁ ++ l₂) = collectControls l₁ ++ collectControls l₂ := by
  induction l₁ with
  | nil => simp [collectControls]
  | cons p rest ih =>
      obtain ⟨key, child⟩ := p
      simp [collectControls, ih]

/-- `ownErrors` is the mapping of the child rendered in order, tagged
with the child key. -/
theorem ownErrors_eq (key : String) (child : FieldNode) :
    ownErrors key child
      = (child.errorsOf.getD []).map fun p => ⟨key, p.1, p.2⟩ := by
  cases h : child.errorsOf <;> simp [ownErrors, h]

/-! ### The claims -/

/-- Claim C1: on the tree `root = (firstName: valid, address: (city: field
with mapping required ↦ true, street: valid))`, where the address group
carries the empty mapping, `getFormValidationErrors` returns exactly the
one-element list whose entry has control `city`, error `required` and
value `true`; the empty mapping of the address group contributes no
element. -/
theorem c1_nested_group_example :
    getFormValidationErrors c1Root
      = [⟨"city", "required", .bool true⟩] := by rfl

/-- Claim C2: the result of the collector on a group is, in order, the
contribution of each child in declared order: for children `a` before
`b`, every failure arising from `a` (its recursive result when a group,
then its own mapping) precedes every failure arising from `b`; and the
several failures of the own mapping of one child appear in exactly the
iteration order of that mapping. -/
theorem c2_collect_order (l₁ l₂ l₃ : List (String × FieldNode))
    (na nb : String) (a b : FieldNode) (ge : Option ValidationErrors) :
    getFormValidationErrors (.group (l₁ ++ (na, a) :: l₂ ++ (nb, b) :: l₃) ge)
      = collectControls l₁ ++ (childResult na a ++ (collectControls l₂
          ++ (childResult nb b ++ collectControls l₃)))
    ∧ childResult na a
        = (if a.isFormGroup then getFormValidationErrors a else [])
            ++ (a.errorsOf.getD []).map fun p => ⟨na, p.1, p.2⟩ := by
  refine ⟨?_, ?_⟩
  · simp [getFormValidationErrors, collectControls_append, collectControls,
      childResult]
  · rw [childResult, ownErrors_eq]

/-- Claim C3: a child that is itself a `FormGroup` contributes first the
failures of its whole subtree (the recursive call) and immediately
afterwards one failure per entry of its own mapping, each tagged with
the own name of the child group, all before any failure of the next
sibling. -/
theorem c3_group_child_own_failures (key : String)
    (cs : List (String × FieldNode)) (ge : Option ValidationErrors)
    (rest : List (String × FieldNode)) :
    collectControls ((key, .group cs ge) :: rest)
      = getFormValidationErrors (.group cs ge)
        ++ ((ge.getD []).map fun p => ⟨key, p.1, p.2⟩)
        ++ collectControls rest := by
  cases ge <;>
    simp [collectControls, FieldNode.isFormGroup, ownErrors, FieldNode.errorsOf]

/-- Claim C5: a child that is a `FormArray` is never descended into: the
collector reads only its own mapping, so the result is the same whatever
the items of the array hold — a failure on a control nested inside the
array contributes no element. -/
theorem c5_array_not_descended (key : String) (items : List FieldNode)
    (es : Option ValidationErrors) (rest : List (String × FieldNode)) :
    collectControls ((key, .arr items es) :: rest)
      = ownErrors key (.arr items es) ++ collectControls rest
    ∧ collectControls ((key, .arr items es) :: rest)
      = collectControls ((key, .arr [] es) :: rest) := by
  refine ⟨?_, ?_⟩ <;>
    simp [collectControls, FieldNode.isFormGroup, ownErrors, FieldNode.errorsOf]

/-- `fillErrors` preserves the `instanceof FormGroup` test. -/
theorem fillErrors_isFormGroup (c : FieldNode) :
    (fillErrors c).isFormGroup = c.isFormGroup := by
  cases c <;> rfl

/-- `fillErrors` does not change the own errors a child contributes:
an absent mapping and the empty mapping both contribute nothing. -/
theorem ownErrors_fillErrors (key : String) (c : FieldNode) :
    ownErrors key (fillErrors c) = ownErrors key c := by
  cases c with
  | field v e => cases e <;> rfl
  | group cs e => cases e <;> rfl
  | arr its e => cases e <;> rfl

mutual

/-- Replacing absent mappings by empty ones does not change the result
of the collector (tree form). -/
theorem fillErrors_collect (t : FieldNode) :
    getFormValidationErrors (fillErrors t) = getFormValidationErrors t := by
  cases t with
  | field v e => rfl
  | arr its e => rfl
  | group cs e =>
      show collectControls (fillErrorsList cs) = collectControls cs
      exact fillErrorsList_collect cs

/-- Replacing absent mappings by empty ones does not change the result
of the collector (controls-list form). -/
theorem fillErrorsList_collect (l : List (String × FieldNode)) :
    collectControls (fillErrorsList l) = collectControls l := by
  cases l with
  | nil => rfl
  | cons p rest =>
      obtain ⟨key, child⟩ := p
      show collectControls ((key, fillErrors child) :: fillErrorsList rest)
        = collectControls ((key, child) :: rest)
      rw [collectControls, collectControls, fillErrors_isFormGroup,
        ownErrors_fillErrors, fillErrorsList_collect rest]
      by_cases hg : child.isFormGroup
      · rw [if_pos hg, if_pos hg]
        cases child with
        | field v e => cases hg
        | arr its e => cases hg
        | group cs e =>
            show (getFormValidationErrors (fillErrors (.group cs e)) ++ _) ++ _
              = (getFormValidationErrors (.group cs e) ++ _) ++ _
            rw [fillErrors_collect (.group cs e)]
      · rw [if_neg hg, if_neg hg]

end

/-- A child whose every mapping is absent or empty contributes no own
errors. -/
theorem ownErrors_of_allValid (key : String) (c : FieldNode)
    (h : allValid c = true) : ownErrors key c = [] := by
  cases c with
  | field v e =>
      cases e with
      | none => rfl
      | some es =>
          simp [allValid] at h
          simp [ownErrors, FieldNode.errorsOf, h]
  | group cs e =>
      cases e with
      | none => rfl
      | some es =>
          simp [allValid] at h
          simp [ownErrors, FieldNode.errorsOf, h.1]
  | arr its e =>
      cases e with
      | none => rfl
      | some es =>
          simp [allValid] at h
          simp [ownErrors, FieldNode.errorsOf, h.1]

mutual

/-- On an all-valid tree the collector returns the empty list (tree
form). -/
theorem allValid_collect (t : FieldNode) (h : allValid t = true) :
    getFormValidationErrors t = [] := by
  cases t with
  | field v e => rfl
  | arr its e => rfl
  | group cs e =>
      show collectControls cs = []
      refine allValidList_collect cs ?_
      simp [allValid] at h
      exact h.2

/-- On an all-valid controls list the collector loop returns the empty
list. -/
theorem allValidList_collect (l : List (String × FieldNode))
    (h : allValidList l = true) : collectControls l = [] := by
  cases l with
  | nil => rfl
  | cons p rest =>
      obtain ⟨key, child⟩ := p
      simp [allValidList] at h
      rw [collectControls, allValidList_collect rest h.2,
        ownErrors_of_allValid key child h.1]
      by_cases hg : child.isFormGroup
      · rw [if_pos hg, allValid_collect child h.1]
        rfl
      · rw [if_neg hg]
        rfl

end

mutual

/-- The state-passing collector leaves the tree unchanged. -/
theorem collectM_state (t : FieldNode) : (collectM t).2 = t := by
  cases t with
  | field v e => rfl
  | arr its e => rfl
  | group cs e =>
      show FieldNode.group (collectControlsM cs).2 e = .group cs e
      rw [collectControlsM_state cs]

/-- The state-passing collector loop leaves the controls unchanged. -/
theorem collectControlsM_state (l : List (String × FieldNode)) :
    (collectControlsM l).2 = l := by
  cases l with
  | nil => rfl
  | cons p rest =>
      obtain ⟨key, child⟩ := p
      show (key, (if child.isFormGroup then collectM child else ([], child)).2)
          :: (collectControlsM rest).2 = (key, child) :: rest
      rw [collectControlsM_state rest]
      by_cases hg : child.isFormGroup
      · rw [if_pos hg, collectM_state child]
      · rw [if_neg hg]

end

mutual

/-- The state-passing collector computes the same list as the pure
collector (tree form). -/
theorem collectM_fst (t : FieldNode) :
    (collectM t).1 = getFormValidationErrors t := by
  cases t with
  | field v e => rfl
  | arr its e => rfl
  | group cs e =>
      show (collectControlsM cs).1 = collectControls cs
      exact collectControlsM_fst cs

/-- The state-passing collector loop computes the same list as the pure
loop. -/
theorem collectControlsM_fst (l : List (String × FieldNode)) :
    (collectControlsM l).1 = collectControls l := by
  cases l with
  | nil => rfl
  | cons p rest =>
      obtain ⟨key, child⟩ := p
      show (if child.isFormGroup then collectM child else ([], child)).1
          ++ ownErrors key
              (if child.isFormGroup then collectM child else ([], child)).2
          ++ (collectControlsM rest).1
        = collectControls ((key, child) :: rest)
      rw [collectControlsM_fst rest, collectControls]
      by_cases hg : child.isFormGroup
      · rw [if_pos hg, if_pos hg, collectM_state child, collectM_fst child]
      · rw [if_neg hg, if_neg hg]

end

/-- Claim C6: the collector is total and a child whose error mapping is absent
(`null`) contributes nothing, exactly as if the mapping were empty:
replacing every absent mapping of the tree by the empty mapping leaves
the result unchanged, and a child with an absent mapping has no own
errors. -/
theorem c6_null_mapping_like_empty (t : FieldNode) (key : String)
    (child : FieldNode) (h : child.errorsOf = none) :
    getFormValidationErrors (fillErrors t) = getFormValidationErrors t
    ∧ ownErrors key child = [] :=
  ⟨fillErrors_collect t, by rw [ownErrors, h]⟩

/-- Witness for claim C6 at a concrete tree and child. -/
theorem c6_null_mapping_like_empty_witness :
    (FieldNode.field (.str "x") none).errorsOf = none
    ∧ (getFormValidationErrors
        (fillErrors (.group [("a", .field .null none)] none))
          = getFormValidationErrors (.group [("a", .field .null none)] none)
        ∧ ownErrors "a" (.field (.str "x") none) = []) :=
  ⟨rfl, c6_null_mapping_like_empty
    (.group [("a", .field .null none)] none) "a"
    (.field (.str "x") none) rfl⟩

/-- Claim C7: on every tree whose every error mapping is empty or absent the
collector returns the empty list, whatever the depth and breadth; and
the collector on a group with no children returns the empty list
unconditionally. -/
theorem c7_all_valid_empty_result (t : FieldNode)
    (e : Option ValidationErrors) (h : allValid t = true) :
    getFormValidationErrors t = []
    ∧ getFormValidationErrors (.group [] e) = [] :=
  ⟨allValid_collect t h, rfl⟩

/-- Witness for claim C7 on a concrete deep and broad all-valid tree. -/
theorem c7_all_valid_empty_result_witness :
    allValid (.group
      [("a", .field .null none),
       ("b", .group
         [("c", .field (.str "") (some [])),
          ("d", .group [("e", .group [] none)] (some []))] none),
       ("f", .arr [.field .null none] none)] none) = true
    ∧ (getFormValidationErrors (.group
        [("a", .field .null none),
         ("b", .group
           [("c", .field (.str "") (some [])),
            ("d", .group [("e", .group [] none)] (some []))] none),
         ("f", .arr [.field .null none] none)] none) = []
       ∧ getFormValidationErrors (.group [] (some [("x", .bool true)])) = []) :=
  ⟨by decide, c7_all_valid_empty_result _ (some [("x", .bool true)]) (by decide)⟩

/-- Claim C9: the collector mutates nothing — in state-passing form it
returns the tree unchanged — and two successive calls on the same
unmutated tree return element-wise equal lists; moreover the
state-passing form computes exactly the pure collector. -/
theorem c9_pure_and_idempotent (t : FieldNode) :
    (collectM t).2 = t
    ∧ (collectM (collectM t).2).1 = (collectM t).1
    ∧ (collectM t).1 = getFormValidationErrors t :=
  ⟨collectM_state t, by rw [collectM_state t], collectM_fst t⟩

end ReactiveForms

namespace ReactiveForms

mutual

/-- A string-free size measure of a tree, bounding the recursion depth
of the collector. -/
def nodeSize : FieldNode → Nat
  | .field _ _ => 1
  | .group cs _ => 1 + controlsSize cs
  | .arr _ _ => 1

/-- Size measure of a controls list. -/
def controlsSize : List (String × FieldNode) → Nat
  | [] => 1
  | (_, c) :: rest => 1 + nodeSize c + controlsSize rest

end

/-- Tree sizes are positive. -/
theorem nodeSize_pos (t : FieldNode) : 1 ≤ nodeSize t := by
  cases t <;> simp [nodeSize]

/-- Controls-list sizes are positive. -/
theorem controlsSize_pos (l : List (String × FieldNode)) :
    1 ≤ controlsSize l := by
  cases l with
  | nil => simp [controlsSize]
  | cons p rest => obtain ⟨k, c⟩ := p; simp [controlsSize]; omega

/-- With fuel at least the size of the input, the fuel-indexed collector
succeeds and computes the recursive collector. -/
theorem collectFuel_sound (fuel : Nat) :
    (∀ t : FieldNode, nodeSize t ≤ fuel →
      collectFuel fuel t = some (getFormValidationErrors t))
    ∧ (∀ l : List (String × FieldNode), controlsSize l ≤ fuel →
      collectControlsFuel fuel l = some (collectControls l)) := by
  induction fuel with
  | zero =>
      refine ⟨fun t h => absurd h ?_, fun l h => absurd h ?_⟩
      · have := nodeSize_pos t; omega
      · have := controlsSize_pos l; omega
  | succ f ih =>
      refine ⟨fun t h => ?_, fun l h => ?_⟩
      · cases t with
        | field v e => rfl
        | arr its e => rfl
        | group cs e =>
            show collectControlsFuel f cs = some (collectControls cs)
            refine ih.2 cs ?_
            rw [nodeSize] at h
            omega
      · cases l with
        | nil => rfl
        | cons p rest =>
            obtain ⟨key, child⟩ := p
            rw [controlsSize] at h
            have hc : nodeSize child ≤ f := by
              have := controlsSize_pos rest; omega
            have hr : controlsSize rest ≤ f := by
              have := nodeSize_pos child; omega
            by_cases hg : child.isFormGroup
            · simp [collectControlsFuel, collectControls, hg,
                ih.1 child hc, ih.2 rest hr]
            · simp [collectControlsFuel, collectControls, hg, ih.2 rest hr]

/-- Claim C8: on every finite tree the recursion of the collector terminates:
the fuel-indexed variant, whose every recursive call consumes fuel and
which reports failure on exhausted fuel, succeeds with the recursive
result as soon as the fuel covers the size of the tree.  (Acyclicity is
built into the inductive tree type and is a precondition, not a runtime
check: neither variant tests for cycles.) -/
theorem c8_collector_terminates (t : FieldNode) (fuel : Nat)
    (h : nodeSize t ≤ fuel) :
    collectFuel fuel t = some (getFormValidationErrors t) :=
  (collectFuel_sound fuel).1 t h

/-- Witness for claim C8 on a concrete nested tree with fuel 9. -/
theorem c8_collector_terminates_witness :
    nodeSize (.group [("a", .group [("b", .field .null
        (some [("x", .null)]))] none)] none) ≤ 9
    ∧ collectFuel 9 (.group [("a", .group [("b", .field .null
        (some [("x", .null)]))] none)] none)
      = some (getFormValidationErrors (.group [("a", .group [("b",
          .field .null (some [("x", .null)]))] none)] none)) :=
  ⟨by decide, c8_collector_terminates _ 9 (by decide)⟩

mutual

/-- Every collected failure comes from the own mapping of some
immediate child edge reachable through nested groups, and carries
exactly that child key as its control (tree form). -/
theorem collect_control_mem (t : FieldNode) (e : IFormError)
    (h : e ∈ getFormValidationErrors t) :
    ∃ p ∈ allControls t, e.control = p.1
      ∧ (e.error, e.value) ∈ p.2.errorsOf.getD [] := by
  cases t with
  | field v es => exact absurd h (by simp [getFormValidationErrors])
  | arr its es => exact absurd h (by simp [getFormValidationErrors])
  | group cs es =>
      have h₁ : e ∈ collectControls cs := h
      exact collectControls_control_mem cs e h₁

/-- Every collected failure comes from the own mapping of some
immediate child edge, and carries exactly that child key as its control
(controls-list form). -/
theorem collectControls_control_mem (l : List (String × FieldNode))
    (e : IFormError) (h : e ∈ collectControls l) :
    ∃ p ∈ allControlsList l, e.control = p.1
      ∧ (e.error, e.value) ∈ p.2.errorsOf.getD [] := by
  cases l with
  | nil => exact absurd h (by simp [collectControls])
  | cons q rest =>
      obtain ⟨key, child⟩ := q
      rw [collectControls] at h
      rcases List.mem_append.mp h with h₁ | h₂
      · rcases List.mem_append.mp h₁ with ha | hb
        · by_cases hg : child.isFormGroup
          · rw [if_pos hg] at ha
            obtain ⟨p, hp, he⟩ := collect_control_mem child e ha
            refine ⟨p, ?_, he⟩
            show p ∈ (key, child) ::
              ((if child.isFormGroup then allControls child else [])
                ++ allControlsList rest)
            exact List.mem_cons_of_mem _
              (List.mem_append.mpr (Or.inl (by rw [if_pos hg]; exact hp)))
          · rw [if_neg hg] at ha
            exact absurd ha (List.not_mem_nil e)
        · rw [ownErrors_eq] at hb
          obtain ⟨q, hq, he⟩ := List.mem_map.mp hb
          subst he
          refine ⟨(key, child), List.mem_cons_self _ _, rfl, ?_⟩
          simpa using hq
      · obtain ⟨p, hp, he⟩ := collectControls_control_mem rest e h₂
        refine ⟨p, ?_, he⟩
        exact List.mem_cons_of_mem _ (List.mem_append.mpr (Or.inr hp))

end

/-- Claim C4: every failure the collector returns is tagged with the bare name
of the immediate child under which it was found — `control` is exactly
the key of an immediate child edge of some (possibly nested) group, with
the error entry found in the own mapping of that child — never a
qualified path of ancestor names. -/
theorem c4_shallow_control_paths (t : FieldNode) (e : IFormError)
    (h : e ∈ getFormValidationErrors t) :
    ∃ p ∈ allControls t, e.control = p.1
      ∧ (e.error, e.value) ∈ p.2.errorsOf.getD [] :=
  collect_control_mem t e h

/-- Witness for claim C4: in a deeply nested tree, the collected failure carries
the bare child key. -/
theorem c4_shallow_control_paths_witness :
    (⟨"city", "required", .bool true⟩ : IFormError)
      ∈ getFormValidationErrors (.group [("outer", .group [("inner",
          .group [("city", .field .null (some [("required", .bool true)]))]
            none)] none)] none)
    ∧ ∃ p ∈ allControls (.group [("outer", .group [("inner",
          .group [("city", .field .null (some [("required", .bool true)]))]
            none)] none)] none),
        (⟨"city", "required", .bool true⟩ : IFormError).control = p.1
        ∧ ((⟨"city", "required", .bool true⟩ : IFormError).error,
            (⟨"city", "required", .bool true⟩ : IFormError).value)
          ∈ p.2.errorsOf.getD [] :=
  ⟨by decide, c4_shallow_control_paths _ _ (by decide)⟩

/-- The recursive loop and the old top-level loop agree on controls
lists with no group children. -/
theorem flatControls_oldLog (l : List (String × FieldNode))
    (h : ∀ p ∈ l, p.2.isFormGroup = false) :
    collectControls l = oldLog l := by
  induction l with
  | nil => rfl
  | cons p rest ih =>
      obtain ⟨key, child⟩ := p
      have hc := h (key, child) (List.mem_cons_self _ _)
      rw [collectControls, oldLog, if_neg (by simp [hc]),
        ih fun q hq => h q (List.mem_cons_of_mem _ hq)]
      rw [ownErrors]
      simp

/-- Claim C10: on a flat group — none of whose children is itself a
`FormGroup` — the recursive collector produces exactly the same
`(control, error, value)` triples, in the same order, as the earlier
non-recursive top-level-only variant reports. -/
theorem c10_flat_matches_old_variant (t : FieldNode)
    (h : isFlat t = true) :
    getFormValidationErrors t = getFormValidationErrorsOld t := by
  cases t with
  | field v e => simp [isFlat] at h
  | arr its e => simp [isFlat] at h
  | group cs e =>
      show collectControls cs = oldLog cs
      refine flatControls_oldLog cs fun p hp => ?_
      rw [isFlat, List.all_eq_true] at h
      have := h p hp
      simpa using this

/-- Witness for claim C10 on a concrete flat group holding an invalid field, a
valid field and a `FormArray`. -/
theorem c10_flat_matches_old_variant_witness :
    isFlat (.group
      [("x", .field .null (some [("required", .bool true)])),
       ("y", .field (.str "ok") none),
       ("z", .arr [.field .null none] (some [("minlength", .num 2)]))]
      none) = true
    ∧ getFormValidationErrors (.group
        [("x", .field .null (some [("required", .bool true)])),
         ("y", .field (.str "ok") none),
         ("z", .arr [.field .null none] (some [("minlength", .num 2)]))]
        none)
      = getFormValidationErrorsOld (.group
        [("x", .field .null (some [("required", .bool true)])),
         ("y", .field (.str "ok") none),
         ("z", .arr [.field .null none] (some [("minlength", .num 2)]))]
        none) :=
  ⟨by decide, c10_flat_matches_old_variant _ (by decide)⟩

end ReactiveForms
